import Mathlib

/-!
Verification of the server-side trigger logic of the ts_admin_portal
repository (Firebase cloud functions in src/db/empty_activity.ts and the
CSV-import helpers in the view layer), against its natural-language
specification.  The Firestore document store is modelled shallowly: a
collection is an association list from document id to document data, the
per-user activities subcollection is a list field of the user document,
and JavaScript Date values are modelled by a calendar structure ordered
through an injective key (valid for the in-range dates the code builds).
Asynchronous trigger bodies are modelled as sequential state transformers,
matching the single-writer-per-document semantics the spec assumes.
-/

/-- Calendar timestamp mirroring the JavaScript `Date` values the code
constructs with `new Date(year, month, day)`: `month` is 0-based as in JS. -/

structure DateTime where
  year : Nat
  month : Nat
  day : Nat
  hour : Nat
  minute : Nat
deriving DecidableEq

/-- Injective monotone key for comparing in-range calendar timestamps, standing
in for the underlying epoch-milliseconds order of JS `Date`. -/

def DateTime.toKey (t : DateTime) : Nat :=
  t.minute + 60 * (t.hour + 24 * (t.day + 32 * (t.month + 13 * t.year)))

/-- Activity document, from the `Activity` interface in empty_activity.ts
(fields not read by the verified functions are omitted). -/

structure ActivityDoc where
  amount : Int
  fund : String
  type : String
  time : DateTime
  sendNotif : Option Bool
  recipient : String
deriving DecidableEq

/-- User (client) document: the fields of the Firestore user documents that the
verified trigger functions read or write.  The activities subcollection of the
user is carried as a list field. -/

structure UserDoc where
  uid : String
  email : String
  appEmail : String
  connectedUsers : List String
  uidGrantedAccess : List String
  activities : List ActivityDoc
deriving DecidableEq

/-- A Firestore collection: association list from document id to data; ids are
unique in the real store, lookup returns the first match. -/

def dbLookup {α : Type} : List (String × α) → String → Option α
  | [], _ => none
  | (k, v) :: rest, c => if k = c then some v else dbLookup rest c

/-- Overwrite the data of the document with the given id (Firestore
`ref.update`/`ref.set` on an existing document). -/

def dbSet {α : Type} (db : List (String × α)) (c : String) (v : α) :
    List (String × α) :=
  db.map (fun p => if p.1 = c then (c, v) else p)

/-- The start-of-year bound the code builds: `new Date(currentYear, 0, 1)`. -/

def startOfYear (y : Nat) : DateTime := ⟨y, 0, 1, 0, 0⟩

/-- The upper bound the code builds and names `endOfYear`:
`new Date(currentYear, 11, 31)`, i.e. December 31 at 00:00 local time. -/

def endOfYear (y : Nat) : DateTime := ⟨y, 11, 31, 0, 0⟩

/-- The Firestore query filter of `calculateYTDForUser`: fund equals "AGQ",
type in \x7bprofit, income\x7d, and `startOfYear <= time <= endOfYear`. -/

def qualifiesYTD (y : Nat) (a : ActivityDoc) : Bool :=
  a.fund == "AGQ" && (a.type == "profit" || a.type == "income") &&
    (startOfYear y).toKey ≤ a.time.toKey && a.time.toKey ≤ (endOfYear y).toKey

/-- The activities subcollection at `/{usersCollectionID}/{cid}/activities`:
empty when no user document holds that id. -/

def activitiesOf (db : List (String × UserDoc)) (cid : String) :
    List ActivityDoc :=
  match dbLookup db cid with
  | some u => u.activities
  | none => []

/-- Model of `calculateYTDForUser` (empty_activity.ts lines 568-588): sum of
the amounts of the activities matched by the query filter, for the current
year `y`. -/

def calculateYTDForUser (y : Nat) (db : List (String × UserDoc))
    (cid : String) : Int :=
  ((activitiesOf db cid).filter (qualifiesYTD y)).foldl
    (fun s a => s + a.amount) 0

/-- Error codes of the `functions.https.HttpsError` values the cloud
functions throw. -/

inductive HttpsErrorCode where
  | unauthenticated
  | invalidArgument
  | notFound
  | alreadyExists
  | unknown
deriving DecidableEq

/-- Connected users pushed onto the traversal queue when the current user
document exists (`userData.connectedUsers`); a missing document contributes
nothing. -/

def adjOf (db : List (String × UserDoc)) (c : String) : List String :=
  match dbLookup db c with
  | some u => u.connectedUsers
  | none => []

/-- The while loop shared by `calculateTotalYTDForUser` (lines 593-622) and
the `calculateTotalYTD` callable (lines 662-709): pop the queue head; when it
is truthy (non-empty string) and not yet processed, mark it processed, add its
YTD and enqueue its connected users; otherwise skip it.  The loop is given
explicit fuel; `none` means the fuel ran out before the queue emptied. -/

def ytdLoop (y : Nat) (db : List (String × UserDoc)) :
    Nat → List String → List String → Int → Option Int
  | _, [], _, total => some total
  | 0, _ :: _, _, _ => none
  | fuel + 1, c :: rest, processed, total =>
      if c = "" ∨ c ∈ processed then
        ytdLoop y db fuel rest processed total
      else
        ytdLoop y db fuel (rest ++ adjOf db c) (c :: processed)
          (total + calculateYTDForUser y db c)

/-- Fuel sufficient for the traversal to drain its queue: one step for the
root plus, for every user document, one step for its id and one for each entry
of its connected-users list (proved sufficient below). -/

def fuelBound (db : List (String × UserDoc)) : Nat :=
  1 + (db.map (fun p => 1 + p.2.connectedUsers.length)).sum

/-- Model of `calculateTotalYTDForUser` (lines 593-622): run the traversal
from `cid` with an empty processed set and zero total. -/

def calculateTotalYTDForUser (y : Nat) (db : List (String × UserDoc))
    (cid : String) : Option Int :=
  ytdLoop y db (fuelBound db) [cid] [] 0

/-- Model of the `calculateTotalYTD` callable (lines 662-709): validate the
`cid` and `usersCollectionID` arguments, then run the identical traversal
loop the callable inlines. -/

def calculateTotalYTD (y : Nat) (db : List (String × UserDoc))
    (cid usersCollectionID : String) : Except HttpsErrorCode (Option Int) :=
  if cid = "" then .error .invalidArgument
  else if usersCollectionID = "" then .error .invalidArgument
  else .ok (ytdLoop y db (fuelBound db) [cid] [] 0)

/-- Reachability along the connected-users relation: `Reach db a b` holds when
`b` can be reached from `a` by following `connectedUsers` edges of existing
user documents. -/

inductive Reach (db : List (String × UserDoc)) (start : String) :
    String → Prop where
  | refl : Reach db start start
  | step {a b : String} : Reach db start a → b ∈ adjOf db a →
      Reach db start b

/-- The ids of the documents present in a collection. -/

def keysF (db : List (String × UserDoc)) : Finset String :=
  (db.map Prod.fst).toFinset

/-- Weight of a user id in the termination potential: one queue pop for the id
itself plus one for each connected user it enqueues. -/

def adjW (db : List (String × UserDoc)) (c : String) : Nat :=
  1 + (adjOf db c).length

/-- Termination potential of a traversal state: pending queue entries plus the
weight of every existing document not yet processed. -/

def potential (db : List (String × UserDoc))
    (queue processed : List String) : Nat :=
  queue.length + ((keysF db).filter (fun k => ¬ k ∈ processed)).sum (adjW db)

/-- Concrete two-client collection with a cycle, a self-loop and a duplicate
edge, used to instantiate the C1 theorem. -/

def c1Db : List (String × UserDoc) :=
  [("alice", ⟨"", "", "", ["bob"], [], []⟩),
   ("bob", ⟨"", "", "", ["alice", "bob", "alice"], [],
     [⟨50, "AGQ", "income", ⟨2025, 5, 10, 0, 0⟩, some true, "Bob"⟩]⟩)]

/-- An AGQ profit activity timestamped December 31, 12:00 of the current
year: inside the calendar year, but after the `new Date(currentYear, 11, 31)`
bound the code computes. -/

def c2Activity : ActivityDoc :=
  ⟨100, "AGQ", "profit", ⟨2025, 11, 31, 12, 0⟩, some true, "Carol"⟩

/-- The same activity timestamped December 30, for contrast. -/

def c2ActivityDec30 : ActivityDoc :=
  ⟨100, "AGQ", "profit", ⟨2025, 11, 30, 12, 0⟩, some true, "Carol"⟩

/-- Collection holding only the late-December-31 activity. -/

def c2Db : List (String × UserDoc) :=
  [("c1", ⟨"", "", "", [], [], [c2Activity]⟩)]

/-- Collection holding only the December-30 activity. -/

def c2DbB : List (String × UserDoc) :=
  [("c1", ⟨"", "", "", [], [], [c2ActivityDec30]⟩)]

/-- One step of the added-users loop of `onConnectedUsersChange` (and of
`addUidToConnectedUsers`, lines 417-437): fetch the peer document; if it
exists and its `uidGrantedAccess` does not yet include the uid, push the uid
and write the array back. -/

def addGrant (uid : String) (db : List (String × UserDoc)) (pid : String) :
    List (String × UserDoc) :=
  match dbLookup db pid with
  | none => db
  | some u =>
      if uid ∈ u.uidGrantedAccess then db
      else dbSet db pid
        { u with uidGrantedAccess := u.uidGrantedAccess ++ [uid] }

/-- One step of the removed-users loop of `onConnectedUsersChange`: fetch the
peer document; if it exists and its `uidGrantedAccess` includes the uid,
filter the uid out and write the array back. -/

def removeGrant (uid : String) (db : List (String × UserDoc)) (pid : String) :
    List (String × UserDoc) :=
  match dbLookup db pid with
  | none => db
  | some u =>
      if uid ∈ u.uidGrantedAccess then
        dbSet db pid
          { u with uidGrantedAccess :=
              u.uidGrantedAccess.filter (fun x => x != uid) }
      else db

/-- The `addedConnectedUsers` list of `onConnectedUsersChange`: ids present
in the after-snapshot but not the before-snapshot. -/

def connectedAdded (beforeD afterD : UserDoc) : List String :=
  afterD.connectedUsers.filter
    (fun cu => decide (¬ cu ∈ beforeD.connectedUsers))

/-- The `removedConnectedUsers` list of `onConnectedUsersChange`: ids present
in the before-snapshot but not the after-snapshot. -/

def connectedRemoved (beforeD afterD : UserDoc) : List String :=
  beforeD.connectedUsers.filter
    (fun cu => decide (¬ cu ∈ afterD.connectedUsers))

/-- Model of the `onConnectedUsersChange` trigger (empty_activity.ts lines
801-892): nothing happens when the connected-users list is unchanged
(`JSON.stringify` equality of string arrays is list equality) or the changed
document carries no uid; otherwise the added-users loop then the
removed-users loop run over the peers collection.  The concurrent
`Promise.all` loops are modelled sequentially, matching the
single-writer-per-document semantics the spec assumes. -/

def onConnectedUsersChange (beforeD afterD : UserDoc)
    (db : List (String × UserDoc)) : List (String × UserDoc) :=
  if beforeD.connectedUsers = afterD.connectedUsers then db
  else if afterD.uid = "" then db
  else
    (connectedRemoved beforeD afterD).foldl (removeGrant afterD.uid)
      ((connectedAdded beforeD afterD).foldl (addGrant afterD.uid) db)

/-- Before-snapshot of the changed client for the C4 counterexample. -/

def c4Before : UserDoc := ⟨"u", "", "", [], [], []⟩

/-- After-snapshot: the peer "peer" was added to the connection list. -/

def c4After : UserDoc := ⟨"u", "", "", ["peer"], [], []⟩

/-- Peers collection in which the added peer already carries the uid twice in
its access-grant array. -/

def c4Db : List (String × UserDoc) :=
  [("peer", ⟨"", "", "", [], ["u", "u"], []⟩)]

/-- Peer document for the C4 witness: does not yet hold the uid. -/

def c4wPeer : UserDoc := ⟨"", "", "", [], ["x"], []⟩

/-- Peers collection for the C4 witness. -/

def c4wDb : List (String × UserDoc) := [("peer", c4wPeer)]

/-- Model of `addUidToConnectedUsers` (empty_activity.ts lines 417-437): for
each connected user whose document exists, push the new uid into its
`uidGrantedAccess` array unless already included — the same per-peer step as
the added-users loop of `onConnectedUsersChange`, modelled sequentially. -/

def addUidToConnectedUsers (connectedUsers : List String) (uid : String)
    (db : List (String × UserDoc)) : List (String × UserDoc) :=
  connectedUsers.foldl (addGrant uid) db

/-- Argument payload of the `linkNewUser` callable; a missing argument is
modelled as the empty string, which the code's falsiness checks treat
identically. -/

structure LinkData where
  email : String
  cid : String
  uid : String
  usersCollectionID : String
deriving DecidableEq

/-- Model of the `linkNewUser` callable (empty_activity.ts lines 354-404):
authentication check, falsiness validation of the four arguments in order,
document existence check, already-linked check, then the write of uid, email
and appEmail followed by the connected-users access-grant update.  All throws
precede the write, so every failure case leaves the collection untouched. -/

def linkNewUser (auth : Bool) (d : LinkData) (db : List (String × UserDoc)) :
    Except HttpsErrorCode (List (String × UserDoc)) :=
  if auth = false then .error .unauthenticated
  else if d.email = "" then .error .invalidArgument
  else if d.cid = "" then .error .invalidArgument
  else if d.uid = "" then .error .invalidArgument
  else if d.usersCollectionID = "" then .error .invalidArgument
  else
    match dbLookup db d.cid with
    | none => .error .notFound
    | some u =>
        if u.uid ≠ "" then .error .alreadyExists
        else
          .ok (addUidToConnectedUsers u.connectedUsers d.uid
            (dbSet db d.cid
              { u with uid := d.uid, email := d.email, appEmail := d.email }))

/-- Unlinked user document for the C6 witness; its connection list includes
itself to exercise the access-grant update. -/

def c6User : UserDoc := ⟨"", "old@example.com", "", ["c1"], [], []⟩

/-- Collection for the C6 witness. -/

def c6Db : List (String × UserDoc) := [("c1", c6User)]

/-- Arguments for the C6 witness. -/

def c6Data : LinkData := ⟨"new@example.com", "c1", "uid1", "users"⟩

/-- Model of `getActivityMessage` (empty_activity.ts lines 179-198): the
switch over the activity type, with the exact template strings. -/

def getActivityMessage (a : ActivityDoc) : String :=
  if a.type = "withdrawal" then
    "New Withdrawal: " ++ a.fund ++
      " Fund finished processing the withdrawal of $" ++ toString a.amount ++
      " from " ++ a.recipient ++
      "\x27s account. View the Activity section for more details."
  else if a.type = "profit" then
    "New Profit: " ++ a.fund ++ " has posted the latest returns for " ++
      a.recipient ++ ". View the Activity section for more details."
  else if a.type = "deposit" then
    "New Deposit: " ++ a.fund ++
      " has finished processing the deposit of $" ++ toString a.amount ++
      " into " ++ a.recipient ++
      "\x27s account. View the Activity section for more details."
  else if a.type = "manual-entry" then
    "New Manual Entry: " ++ a.fund ++ " Fund has made a manual entry of $" ++
      toString a.amount ++
      " into your account. View the Activity section for more details."
  else
    "New Activity: A new activity has been created. View the Activity section for more details."

/-- Notification document as `createNotif` (lines 211-230) writes it; the
server-timestamp field is omitted from the model. -/

structure NotificationDoc where
  activityId : String
  recipient : String
  title : String
  body : String
  message : String
  isRead : Bool
  type : String
deriving DecidableEq

/-- The document `createNotif` assembles: the message split on ": " with a
limit of two pieces gives the title and the body. -/

def mkNotif (a : ActivityDoc) (activityId : String) : NotificationDoc :=
  let message := getActivityMessage a
  let parts := message.splitOn ": "
  { activityId := activityId
    recipient := a.recipient
    title := parts.headD ""
    body := (parts.drop 1).headD ""
    message := message
    isRead := false
    type := "activity" }

/-- The user collections the notification trigger refuses to notify for. -/

def excludedCollections : List String := ["backup", "playground", "playground2"]

/-- How a trigger invocation fails as its caller sees it: a
`functions.https.HttpsError` thrown with a code, or a raw rejection that no
catch block intercepted, propagating unlogged and unwrapped. -/
inductive TriggerError where
  | httpsError : HttpsErrorCode → TriggerError
  | uncaught : TriggerError
deriving DecidableEq

/-- Observable outcome of a trigger invocation: the value or error it settles
with, and the notification documents it wrote. -/

structure TriggerOutcome where
  result : Except TriggerError (Option Unit)
  written : List NotificationDoc

/-- Model of the `handleNewActivity` trigger (empty_activity.ts lines
275-293): exit with null unless `sendNotif` is strictly `true` and the
collection is not excluded; otherwise create the notification document and
send it.  `createOk` and `sendOk` say whether the Firestore write inside
`createNotif` and the FCM send inside `sendNotif` succeed.  `createNotif` is
awaited inside the try block, so its failure is caught, logged and re-thrown
as an HttpsError with code `unknown`; `sendNotif` is called without `await`
and its promise is returned from inside the try (lines 287-288), so its
rejection bypasses the catch and reaches the caller as the raw error,
neither logged nor wrapped (`TriggerError.uncaught`). -/

def handleNewActivity (a : ActivityDoc) (activityId userCollection : String)
    (createOk sendOk : Bool) : TriggerOutcome :=
  if a.sendNotif ≠ some true ∨ userCollection ∈ excludedCollections then
    ⟨.ok none, []⟩
  else if createOk = false then ⟨.error (.httpsError .unknown), []⟩
  else if sendOk = false then ⟨.error .uncaught, [mkNotif a activityId]⟩
  else ⟨.ok (some ()), [mkNotif a activityId]⟩

/-- Concrete activity requiring a notification, for the C7 counterexample. -/

def c7Activity : ActivityDoc :=
  ⟨10, "AGQ", "deposit", ⟨2025, 3, 1, 0, 0⟩, some true, "Dan"⟩

/-- One asset entry of the per-fund asset document, as `onAssetUpdate` reads
it (`{ key, ...value }` with the display title and the identifying index). -/

structure AssetDetails where
  amount : Int
  displayTitle : String
  index : Nat
deriving DecidableEq

/-- One entry of `assetsToUpdate` in `onAssetUpdate`. -/

structure Rename where
  index : Nat
  oldDisplayTitle : String
  newDisplayTitle : String
deriving DecidableEq

/-- The fund the trigger derives from the asset document id:
`assetId == 'agq' ? 'AGQ' : 'AK1'`. -/

def fundOfAssetId (assetId : String) : String :=
  if assetId = "agq" then "AGQ" else "AK1"

/-- The asset entries of the document, excluding the `total` and `fund`
keys. -/

def entriesFiltered (d : List (String × AssetDetails)) :
    List (String × AssetDetails) :=
  d.filter (fun kv => decide (¬ kv.1 ∈ (["total", "fund"] : List String)))

/-- JavaScript `Map.set`: overwrite in place when the key exists, else append
(insertion order is preserved for iteration). -/

def jsMapSet (m : List (Nat × AssetDetails)) (k : Nat) (v : AssetDetails) :
    List (Nat × AssetDetails) :=
  if m.any (fun p => p.1 == k) then
    m.map (fun p => if p.1 = k then (k, v) else p)
  else m ++ [(k, v)]

/-- `new Map(assets.map(a => [a.index, a]))`: the assets keyed by index. -/

def byIndex (l : List (String × AssetDetails)) : List (Nat × AssetDetails) :=
  (entriesFiltered l).foldl (fun m kv => jsMapSet m kv.2.index kv.2) []

/-- `Map.get` on the association list representation. -/

def idxLookup (m : List (Nat × AssetDetails)) (k : Nat) : Option AssetDetails :=
  match m.find? (fun p => p.1 == k) with
  | some p => some p.2
  | none => none

/-- The `assetsToUpdate` computation of `onAssetUpdate` (lines 922-933):
pair the before- and after-assets by index and keep those whose display title
changed. -/

def assetsToUpdate (beforeD afterD : List (String × AssetDetails)) :
    List Rename :=
  (byIndex beforeD).filterMap (fun p =>
    match idxLookup (byIndex afterD) p.1 with
    | some aft =>
        if p.2.displayTitle ≠ aft.displayTitle then
          some ⟨p.1, p.2.displayTitle, aft.displayTitle⟩
        else none
    | none => none)

/-- The Firestore query filter of the rename loop: fund and recipient both
match exactly. -/

def activityMatches (fund recip : String) (ia : String × ActivityDoc) : Bool :=
  ia.2.fund == fund && ia.2.recipient == recip

/-- The recipient written for a rename: the client's full name when the new
display title is `Personal`, the new display title otherwise. -/

def newRecipientOf (clientName : String) (r : Rename) : String :=
  if r.newDisplayTitle = "Personal" then clientName else r.newDisplayTitle

/-- The recipient matched for a rename: the client's full name when the old
display title was `Personal`, the old display title otherwise. -/

def oldRecipientOf (clientName : String) (r : Rename) : String :=
  if r.oldDisplayTitle = "Personal" then clientName else r.oldDisplayTitle

/-- The batched update set `onAssetUpdate` assembles (lines 954-982): for
each rename, one `batch.update(doc.ref, { recipient: newRecipient })` per
activity matching the fund and the old recipient. -/

def renameOps (fund clientName : String) (acts : List (String × ActivityDoc))
    (rs : List Rename) : List (String × String) :=
  rs.foldl (fun ops r =>
    ops ++ (acts.filter (activityMatches fund (oldRecipientOf clientName r))).map
      (fun ia => (ia.1, newRecipientOf clientName r))) []

/-- One batch operation applied to one activity entry: set the recipient when
the document id matches. -/

def opStep (e : String × ActivityDoc) (op : String × String) :
    String × ActivityDoc :=
  if e.1 = op.1 then (e.1, { e.2 with recipient := op.2 }) else e

/-- One batch operation applied to the whole activities collection. -/

def applyOp (acts : List (String × ActivityDoc)) (op : String × String) :
    List (String × ActivityDoc) :=
  acts.map (fun ia => opStep ia op)

/-- `batch.commit()`: apply the accumulated operations in order. -/

def commitBatch (acts : List (String × ActivityDoc))
    (ops : List (String × String)) : List (String × ActivityDoc) :=
  ops.foldl applyOp acts

/-- The write set the trigger commits, as a function of its inputs: empty
when no display title changed or the client document (its name) is missing. -/

def onAssetUpdateBatchOps (assetId : String)
    (beforeD afterD : List (String × AssetDetails))
    (clientDoc : Option (String × String))
    (acts : List (String × ActivityDoc)) : List (String × String) :=
  let rs := assetsToUpdate beforeD afterD
  if rs = [] then []
  else
    match clientDoc with
    | none => []
    | some nm =>
        renameOps (fundOfAssetId assetId) (nm.1 ++ " " ++ nm.2) acts rs

/-- Model of the `onAssetUpdate` trigger (empty_activity.ts lines 898-993)
acting on the activities subcollection: compute the renames, fetch the client
name (`clientDoc` is `data()?.name`), assemble the batch and commit it.
`commitOk` says whether `batch.commit()` succeeds; its failure is caught and
logged, the trigger completing with the collection unchanged. -/

def onAssetUpdate (assetId : String)
    (beforeD afterD : List (String × AssetDetails))
    (clientDoc : Option (String × String))
    (acts : List (String × ActivityDoc)) (commitOk : Bool) :
    List (String × ActivityDoc) :=
  let rs := assetsToUpdate beforeD afterD
  if rs = [] then acts
  else
    match clientDoc with
    | none => acts
    | some nm =>
        if commitOk then
          commitBatch acts
            (renameOps (fundOfAssetId assetId) (nm.1 ++ " " ++ nm.2) acts rs)
        else acts

/-- Before-snapshot of the asset document for the C5 witness. -/

def c5Before : List (String × AssetDetails) := [("agq1", ⟨0, "Fund A", 1⟩)]

/-- After-snapshot: the display title changed from "Fund A" to "Fund B". -/

def c5After : List (String × AssetDetails) := [("agq1", ⟨0, "Fund B", 1⟩)]

/-- Activities for the C5 witness: one exact match, one wrong fund, one wrong
recipient. -/

def c5Acts : List (String × ActivityDoc) :=
  [("d1", ⟨5, "AGQ", "profit", ⟨2025, 1, 1, 0, 0⟩, some false, "Fund A"⟩),
   ("d2", ⟨6, "AK1", "profit", ⟨2025, 1, 1, 0, 0⟩, some false, "Fund A"⟩),
   ("d3", ⟨7, "AGQ", "deposit", ⟨2025, 1, 1, 0, 0⟩, some false, "Other"⟩)]

/-- The single rename of the C5 witness. -/

def c5Rename : Rename := ⟨1, "Fund A", "Fund B"⟩

/-- State of the batching loop of `scheduledYTDReset`: the committed batches,
the operations of the current batch, and `operationsCount`. -/

structure ResetState where
  batches : List (List String)
  current : List String
  count : Nat

/-- One iteration of the user loop in `scheduledYTDReset` (lines 1072-1096):
add the user's ytd/totalYtd update to the batch, and commit and start a fresh
batch when the count reaches 500. -/

def resetStep (st : ResetState) (userId : String) : ResetState :=
  let cur := st.current ++ [userId]
  let cnt := st.count + 1
  if cnt = 500 then ⟨st.batches ++ [cur], [], 0⟩ else ⟨st.batches, cur, cnt⟩

/-- Model of `scheduledYTDReset` (empty_activity.ts lines 1057-1110): iterate
over all users, committing every 500 operations, then commit the remainder;
the result is the sequence of committed batches (each operation is the id of
the user whose assets/general document it resets). -/

def scheduledYTDReset (userIds : List String) : List (List String) :=
  let st := userIds.foldl resetStep ⟨[], [], 0⟩
  if st.count > 0 then st.batches ++ [st.current] else st.batches

/-- Before-snapshot for the C8 counterexample. -/

def c8Before : List (String × AssetDetails) := [("a1", ⟨0, "Old", 1⟩)]

/-- After-snapshot: the title changed from "Old" to "New". -/

def c8After : List (String × AssetDetails) := [("a1", ⟨0, "New", 1⟩)]

/-- An activity matching the rename (fund AGQ, recipient "Old"). -/

def c8Act : ActivityDoc :=
  ⟨1, "AGQ", "profit", ⟨2025, 0, 2, 0, 0⟩, some false, "Old"⟩

/-- 501 matching activity records. -/

def c8Acts : List (String × ActivityDoc) := List.replicate 501 ("x", c8Act)

/-- Model of `getActivityType` in the unnamed CSV-import handler
(src/unnamed/part_000 lines 20-30): a falsy Type cell (absent or empty
string) maps to "none", "withdrawal" to "income", "deposit" to "deposit",
anything else to "other". -/

def getActivityTypeUnnamed (t : Option String) : String :=
  match t with
  | none => "none"
  | some s =>
      if s = "" then "none"
      else if s = "withdrawal" then "income"
      else if s = "deposit" then "deposit"
      else "other"

/-- Model of `getActivityType` in the dashboard import handler
(src/src/views/dashboard/ClientInputModalBody.tsx lines 25-35): identical
except that "withdrawal" maps to "profit". -/

def getActivityTypeDashboard (t : Option String) : String :=
  match t with
  | none => "none"
  | some s =>
      if s = "" then "none"
      else if s = "withdrawal" then "profit"
      else if s = "deposit" then "deposit"
      else "other"

lemma dbLookup_eq_none_of_not_mem {α : Type} (db : List (String × α))
    (c : String) (h : ¬ c ∈ db.map Prod.fst) : dbLookup db c = none := by
  induction db with
  | nil => rfl
  | cons p rest ih =>
      obtain ⟨k, v⟩ := p
      simp only [List.map_cons, List.mem_cons, not_or] at h
      have hkc : ¬ k = c := fun hkc1 => h.1 hkc1.symm
      simp only [dbLookup, if_neg hkc, ih h.2]

lemma adjOf_eq_nil_of_not_mem (db : List (String × UserDoc)) (c : String)
    (h : ¬ c ∈ keysF db) : adjOf db c = [] := by
  rw [keysF, List.mem_toFinset] at h
  simp [adjOf, dbLookup_eq_none_of_not_mem db c h]

lemma filter_erase_processed (db : List (String × UserDoc)) (c : String)
    (processed : List String) :
    (keysF db).filter (fun k => ¬ k ∈ (c :: processed)) =
      ((keysF db).filter (fun k => ¬ k ∈ processed)).erase c := by
  ext k
  simp only [Finset.mem_filter, Finset.mem_erase, List.mem_cons, not_or]
  tauto

lemma potential_process (db : List (String × UserDoc)) (c : String)
    (processed : List String) (hck : c ∈ keysF db) (hcp : ¬ c ∈ processed) :
    ((keysF db).filter (fun k => ¬ k ∈ processed)).sum (adjW db) =
      adjW db c +
        ((keysF db).filter (fun k => ¬ k ∈ (c :: processed))).sum (adjW db) := by
  rw [filter_erase_processed]
  have hcf : c ∈ (keysF db).filter (fun k => ¬ k ∈ processed) := by
    simp [Finset.mem_filter, hck, hcp]
  rw [add_comm, Finset.sum_erase_add _ _ hcf]

lemma potential_process_missing (db : List (String × UserDoc)) (c : String)
    (processed : List String) (hck : ¬ c ∈ keysF db) :
    ((keysF db).filter (fun k => ¬ k ∈ (c :: processed))).sum (adjW db) =
      ((keysF db).filter (fun k => ¬ k ∈ processed)).sum (adjW db) := by
  apply Finset.sum_congr _ (fun _ _ => rfl)
  apply Finset.filter_congr
  intro k hk
  have : k ≠ c := fun h => hck (h ▸ hk)
  simp [List.mem_cons, this]

/-- With fuel at least the potential of the state, the traversal loop drains
its queue and returns a total. -/
lemma ytdLoop_isSome (y : Nat) (db : List (String × UserDoc)) :
    ∀ fuel queue processed total, potential db queue processed ≤ fuel →
      ∃ t, ytdLoop y db fuel queue processed total = some t := by
  intro fuel
  induction fuel with
  | zero =>
      intro queue processed total h
      cases queue with
      | nil => exact ⟨total, rfl⟩
      | cons c rest =>
          exfalso
          simp [potential] at h
  | succ n ih =>
      intro queue processed total h
      cases queue with
      | nil => exact ⟨total, rfl⟩
      | cons c rest =>
          by_cases hskip : c = "" ∨ c ∈ processed
          · rw [ytdLoop, if_pos hskip]
            apply ih
            have : potential db rest processed + 1 =
                potential db (c :: rest) processed := by
              simp [potential]; omega
            omega
          · rw [ytdLoop, if_neg hskip]
            push_neg at hskip
            apply ih
            by_cases hck : c ∈ keysF db
            · have hsum := potential_process db c processed hck hskip.2
              have h1 : potential db (c :: rest) processed =
                  potential db (rest ++ adjOf db c) (c :: processed) + 2 := by
                simp only [potential, List.length_cons, List.length_append]
                rw [hsum]
                simp [adjW]
                omega
              omega
            · have hadj := adjOf_eq_nil_of_not_mem db c hck
              have hsum := potential_process_missing db c processed hck
              have h1 : potential db (c :: rest) processed =
                  potential db (rest ++ adjOf db c) (c :: processed) + 1 := by
                simp only [potential, List.length_cons, List.length_append,
                  hadj, List.length_nil, hsum]
                omega
              omega

lemma keysF_sum_le (db : List (String × UserDoc)) :
    (keysF db).sum (adjW db) ≤
      (db.map (fun p => 1 + p.2.connectedUsers.length)).sum := by
  induction db with
  | nil => simp [keysF]
  | cons p rest ih =>
      obtain ⟨a, u⟩ := p
      have hkeys : keysF ((a, u) :: rest) = insert a (keysF rest) := by
        simp [keysF]
      have hadjW : ∀ k, k ≠ a → adjW ((a, u) :: rest) k = adjW rest k := by
        intro k hk
        have hka : ¬ a = k := fun hak => hk hak.symm
        simp [adjW, adjOf, dbLookup, if_neg hka]
      have hadjWa : adjW ((a, u) :: rest) a = 1 + u.connectedUsers.length := by
        simp [adjW, adjOf, dbLookup]
      rw [hkeys]
      by_cases ha : a ∈ keysF rest
      · rw [Finset.insert_eq_self.mpr ha]
        have hsplit : (keysF rest).sum (adjW ((a, u) :: rest)) =
            ((keysF rest).erase a).sum (adjW ((a, u) :: rest)) +
              adjW ((a, u) :: rest) a :=
          (Finset.sum_erase_add _ _ ha).symm
        have hcongr : ((keysF rest).erase a).sum (adjW ((a, u) :: rest)) =
            ((keysF rest).erase a).sum (adjW rest) := by
          apply Finset.sum_congr rfl
          intro k hk
          exact hadjW k (Finset.ne_of_mem_erase hk)
        have hmono : ((keysF rest).erase a).sum (adjW rest) ≤
            (keysF rest).sum (adjW rest) :=
          Finset.sum_le_sum_of_subset (Finset.erase_subset _ _)
        rw [hsplit, hcongr, hadjWa]
        simp only [List.map_cons, List.sum_cons]
        omega
      · rw [Finset.sum_insert ha, hadjWa]
        have hcongr : (keysF rest).sum (adjW ((a, u) :: rest)) =
            (keysF rest).sum (adjW rest) := by
          apply Finset.sum_congr rfl
          intro k hk
          exact hadjW k (fun h => ha (h ▸ hk))
        rw [hcongr]
        simp only [List.map_cons, List.sum_cons]
        omega

lemma potential_init_le (db : List (String × UserDoc)) (root : String) :
    potential db [root] [] ≤ fuelBound db := by
  have h1 : potential db [root] [] = 1 + (keysF db).sum (adjW db) := by
    simp [potential]
  rw [h1, fuelBound]
  have := keysF_sum_le db
  omega

lemma dbLookup_mem {α : Type} (db : List (String × α)) (c : String) (u : α)
    (h : dbLookup db c = some u) : (c, u) ∈ db := by
  induction db with
  | nil => simp [dbLookup] at h
  | cons p rest ih =>
      obtain ⟨k, v⟩ := p
      by_cases hkc : k = c
      · subst hkc
        rw [dbLookup, if_pos rfl] at h
        injection h with h
        subst h
        exact List.mem_cons_self _ _
      · rw [dbLookup, if_neg hkc] at h
        exact List.mem_cons_of_mem _ (ih h)

lemma adjOf_ne_empty (db : List (String × UserDoc))
    (hdb : ∀ e ∈ db, ∀ x ∈ e.2.connectedUsers, x ≠ "") :
    ∀ a b, b ∈ adjOf db a → b ≠ "" := by
  intro a b hb
  unfold adjOf at hb
  cases hl : dbLookup db a with
  | none => rw [hl] at hb; simp at hb
  | some u =>
      rw [hl] at hb
      exact hdb (a, u) (dbLookup_mem db a u hl) b hb

/-- First-step inversion of reachability: a reachable target is the start
itself or is reachable from some direct successor of the start. -/
lemma reach_head {db : List (String × UserDoc)} {start x : String}
    (h : Reach db start x) :
    start = x ∨ ∃ b ∈ adjOf db start, Reach db b x := by
  induction h with
  | refl => exact Or.inl rfl
  | @step a b _ hbmem ih =>
      cases ih with
      | inl h1 => exact Or.inr ⟨b, h1 ▸ hbmem, Reach.refl⟩
      | inr h1 =>
          obtain ⟨v, hv, hva⟩ := h1
          exact Or.inr ⟨v, hv, hva.step hbmem⟩

/-- Escape lemma: a path from inside a set `P` that is edge-closed into
`P ∪ Q` and ends outside `P` passes through some vertex of `Q` from which the
target is still reachable. -/
lemma reach_escape {db : List (String × UserDoc)} {P Q : List String}
    (hclos : ∀ p ∈ P, ∀ b ∈ adjOf db p, b ∈ P ∨ b ∈ Q) :
    ∀ {a x : String}, Reach db a x → a ∈ P → ¬ x ∈ P →
      ∃ v ∈ Q, Reach db v x := by
  intro a x h
  induction h with
  | refl => intro haP hxP; exact absurd haP hxP
  | @step a1 b hab hbmem ih =>
      intro haP hbP
      by_cases ha1 : a1 ∈ P
      · cases hclos a1 ha1 b hbmem with
        | inl h1 => exact absurd h1 hbP
        | inr h1 => exact ⟨b, h1, Reach.refl⟩
      · obtain ⟨v, hv, hva1⟩ := ih haP ha1
        exact ⟨v, hv, hva1.step hbmem⟩

/-- Loop invariant of the total-YTD traversal: from a state whose processed
set sums to `total`, is edge-closed into the queue, and together with the
queue covers everything reachable from the root, a successful run returns the
sum of the per-user YTDs over a duplicate-free enumeration of the set of
clients reachable from the root. -/
lemma ytdLoop_reachable_sum (y : Nat) (db : List (String × UserDoc))
    (root : String) (hne : ∀ a b, b ∈ adjOf db a → b ≠ "") :
    ∀ fuel (queue processed : List String) (total : Int) (t : Int),
      (∀ x ∈ queue, x ≠ "") →
      processed.Nodup →
      total = (processed.map (calculateYTDForUser y db)).sum →
      (∀ p ∈ processed, ∀ b ∈ adjOf db p, b ∈ processed ∨ b ∈ queue) →
      (∀ p ∈ processed, Reach db root p) →
      (∀ q ∈ queue, Reach db root q) →
      (∀ x, Reach db root x → x ∈ processed ∨ ∃ q ∈ queue, Reach db q x) →
      ytdLoop y db fuel queue processed total = some t →
      ∃ L : List String, L.Nodup ∧ (∀ x, x ∈ L ↔ Reach db root x) ∧
        t = (L.map (calculateYTDForUser y db)).sum := by
  intro fuel
  induction fuel with
  | zero =>
      intro queue processed total t hq hnd htot hclos hpr hqr hcov hrun
      cases queue with
      | nil =>
          simp only [ytdLoop, Option.some.injEq] at hrun
          refine ⟨processed, hnd, ?_, by rw [← hrun, htot]⟩
          intro x
          constructor
          · exact hpr x
          · intro hx
            cases hcov x hx with
            | inl h1 => exact h1
            | inr h1 => obtain ⟨q, hqm, _⟩ := h1; simp at hqm
      | cons c rest => simp [ytdLoop] at hrun
  | succ n ih =>
      intro queue processed total t hq hnd htot hclos hpr hqr hcov hrun
      cases queue with
      | nil =>
          simp only [ytdLoop, Option.some.injEq] at hrun
          refine ⟨processed, hnd, ?_, by rw [← hrun, htot]⟩
          intro x
          constructor
          · exact hpr x
          · intro hx
            cases hcov x hx with
            | inl h1 => exact h1
            | inr h1 => obtain ⟨q, hqm, _⟩ := h1; simp at hqm
      | cons c rest =>
          rw [ytdLoop] at hrun
          by_cases hskip : c = "" ∨ c ∈ processed
          · rw [if_pos hskip] at hrun
            have hc : c ∈ processed :=
              hskip.resolve_left (hq c (List.mem_cons_self c rest))
            have hclos2 : ∀ p ∈ processed, ∀ b ∈ adjOf db p,
                b ∈ processed ∨ b ∈ rest := by
              intro p hp b hb
              cases hclos p hp b hb with
              | inl h1 => exact Or.inl h1
              | inr h1 =>
                  cases List.mem_cons.mp h1 with
                  | inl h2 => exact Or.inl (h2 ▸ hc)
                  | inr h2 => exact Or.inr h2
            refine ih rest processed total t
              (fun x hx => hq x (List.mem_cons_of_mem _ hx)) hnd htot hclos2
              hpr (fun q hq1 => hqr q (List.mem_cons_of_mem _ hq1)) ?_ hrun
            intro x hx
            cases hcov x hx with
            | inl h1 => exact Or.inl h1
            | inr h1 =>
                obtain ⟨q, hqm, hqx⟩ := h1
                cases List.mem_cons.mp hqm with
                | inl h2 =>
                    subst h2
                    by_cases hxP : x ∈ processed
                    · exact Or.inl hxP
                    · exact Or.inr (reach_escape hclos2 hqx hc hxP)
                | inr h2 => exact Or.inr ⟨q, h2, hqx⟩
          · rw [if_neg hskip] at hrun
            push_neg at hskip
            obtain ⟨hc0, hcp⟩ := hskip
            refine ih (rest ++ adjOf db c) (c :: processed) _ t ?_ ?_ ?_ ?_ ?_ ?_ ?_ hrun
            · intro x hx
              cases List.mem_append.mp hx with
              | inl h1 => exact hq x (List.mem_cons_of_mem _ h1)
              | inr h1 => exact hne c x h1
            · exact List.nodup_cons.mpr ⟨hcp, hnd⟩
            · rw [htot]
              simp [add_comm]
            · intro p hp b hb
              cases List.mem_cons.mp hp with
              | inl h1 =>
                  subst h1
                  exact Or.inr (List.mem_append_right _ hb)
              | inr h1 =>
                  cases hclos p h1 b hb with
                  | inl h2 => exact Or.inl (List.mem_cons_of_mem _ h2)
                  | inr h2 =>
                      cases List.mem_cons.mp h2 with
                      | inl h3 => exact Or.inl (h3 ▸ List.mem_cons_self _ _)
                      | inr h3 => exact Or.inr (List.mem_append_left _ h3)
            · intro p hp
              cases List.mem_cons.mp hp with
              | inl h1 => exact h1 ▸ hqr c (List.mem_cons_self _ _)
              | inr h1 => exact hpr p h1
            · intro q hq1
              cases List.mem_append.mp hq1 with
              | inl h1 => exact hqr q (List.mem_cons_of_mem _ h1)
              | inr h1 => exact (hqr c (List.mem_cons_self _ _)).step h1
            · intro x hx
              cases hcov x hx with
              | inl h1 => exact Or.inl (List.mem_cons_of_mem _ h1)
              | inr h1 =>
                  obtain ⟨q, hqm, hqx⟩ := h1
                  cases List.mem_cons.mp hqm with
                  | inl h2 =>
                      subst h2
                      cases reach_head hqx with
                      | inl h3 => exact Or.inl (h3 ▸ List.mem_cons_self _ _)
                      | inr h3 =>
                          obtain ⟨b, hb, hbx⟩ := h3
                          exact Or.inr ⟨b, List.mem_append_right _ hb, hbx⟩
                  | inr h2 => exact Or.inr ⟨q, List.mem_append_left _ h2, hqx⟩

/-- C1: for every root client and finite connected-users graph (with the
Firestore well-formedness condition that document ids are non-empty strings),
`calculateTotalYTDForUser` and the `calculateTotalYTD` callable return the sum
of the per-client YTD over the set of clients reachable from the root, each
reachable client counted exactly once (the enumeration `L` is duplicate-free),
even in the presence of cycles or duplicate edges. -/
theorem c1_total_ytd_sums_reachable (y : Nat) (db : List (String × UserDoc))
    (root ucid : String) (hroot : root ≠ "") (hucid : ucid ≠ "")
    (hdb : ∀ e ∈ db, ∀ x ∈ e.2.connectedUsers, x ≠ "") :
    ∃ L : List String, L.Nodup ∧ (∀ x, x ∈ L ↔ Reach db root x) ∧
      calculateTotalYTDForUser y db root =
        some ((L.map (calculateYTDForUser y db)).sum) ∧
      calculateTotalYTD y db root ucid =
        Except.ok (some ((L.map (calculateYTDForUser y db)).sum)) := by
  have hne := adjOf_ne_empty db hdb
  obtain ⟨t, ht⟩ :=
    ytdLoop_isSome y db (fuelBound db) [root] [] 0 (potential_init_le db root)
  obtain ⟨L, hLnd, hLiff, hLt⟩ :=
    ytdLoop_reachable_sum y db root hne (fuelBound db) [root] [] 0 t
      (by intro x hx; simp at hx; subst hx; exact hroot)
      List.nodup_nil (by simp)
      (by intro p hp; simp at hp)
      (by intro p hp; simp at hp)
      (by intro q hq; simp at hq; subst hq; exact Reach.refl)
      (by
        intro x hx
        exact Or.inr ⟨root, List.mem_singleton_self root, hx⟩)
      ht
  refine ⟨L, hLnd, hLiff, ?_, ?_⟩
  · rw [calculateTotalYTDForUser, ht, hLt]
  · rw [calculateTotalYTD, if_neg hroot, if_neg hucid, ht, hLt]

/-- Witness for C1 at a concrete cyclic graph. -/
theorem c1_total_ytd_sums_reachable_witness :
    ∃ L : List String, L.Nodup ∧ (∀ x, x ∈ L ↔ Reach c1Db "alice" x) ∧
      calculateTotalYTDForUser 2025 c1Db "alice" =
        some ((L.map (calculateYTDForUser 2025 c1Db)).sum) ∧
      calculateTotalYTD 2025 c1Db "alice" "users" =
        Except.ok ((some ((L.map (calculateYTDForUser 2025 c1Db)).sum))) :=
  c1_total_ytd_sums_reachable 2025 c1Db "alice" "users" (by decide) (by decide)
    (by decide)

/-- C3: for every collection and root, the traversal loop of
`calculateTotalYTDForUser` finishes within the explicit fuel bound (one step
per queue pop, at most one processing step per distinct client), so it
terminates on every finite connected-users graph, cycles and self-loops
included. -/
theorem c3_total_ytd_traversal_terminates (y : Nat)
    (db : List (String × UserDoc)) (cid : String) :
    ∃ t, calculateTotalYTDForUser y db cid = some t :=
  ytdLoop_isSome y db (fuelBound db) [cid] [] 0 (potential_init_le db cid)

/-- C2 (code bug): an AGQ profit activity of the current calendar year that is
timestamped December 31 at 12:00 — i.e. between the start of December 31 and
the end of the year — is NOT summed by `calculateYTDForUser`, because the code
builds its upper bound as `new Date(currentYear, 11, 31)` (December 31 at
00:00) and filters `time <= endOfYear`; the identical activity one day
earlier is summed.  The claim (and the spec sentence "timestamp within the
calendar year", as well as the variable name `endOfYear`) requires any instant
through the end of December 31 to qualify. -/
theorem c2_ytd_excludes_late_dec31 :
    c2Activity.fund = "AGQ" ∧ c2Activity.type = "profit" ∧
    c2Activity.time.year = 2025 ∧ c2Activity.amount = 100 ∧
    calculateYTDForUser 2025 c2Db "c1" = 0 ∧
    calculateYTDForUser 2025 c2DbB "c1" = 100 := by
  refine ⟨rfl, rfl, rfl, rfl, ?_, ?_⟩ <;> decide

lemma dbLookup_dbSet_ne {α : Type} (db : List (String × α)) (c q : String)
    (v : α) (h : q ≠ c) : dbLookup (dbSet db c v) q = dbLookup db q := by
  have hcq : ¬ c = q := fun h1 => h h1.symm
  induction db with
  | nil => rfl
  | cons p rest ih =>
      obtain ⟨k, w⟩ := p
      by_cases hkc : k = c
      · subst hkc
        have h2 : dbSet ((k, w) :: rest) k v = (k, v) :: dbSet rest k v := by
          simp [dbSet]
        rw [h2, dbLookup, dbLookup, if_neg hcq, if_neg hcq]
        exact ih
      · have h2 : dbSet ((k, w) :: rest) c v = (k, w) :: dbSet rest c v := by
          simp [dbSet, hkc]
        rw [h2, dbLookup, dbLookup]
        by_cases hkq : k = q
        · rw [if_pos hkq, if_pos hkq]
        · rw [if_neg hkq, if_neg hkq]
          exact ih

lemma dbLookup_dbSet_self {α : Type} (db : List (String × α)) (c : String)
    (v : α) (h : (dbLookup db c).isSome) :
    dbLookup (dbSet db c v) c = some v := by
  induction db with
  | nil => simp [dbLookup] at h
  | cons p rest ih =>
      obtain ⟨k, w⟩ := p
      by_cases hkc : k = c
      · subst hkc
        have h2 : dbSet ((k, w) :: rest) k v = (k, v) :: dbSet rest k v := by
          simp [dbSet]
        rw [h2, dbLookup, if_pos rfl]
      · have h2 : dbSet ((k, w) :: rest) c v = (k, w) :: dbSet rest c v := by
          simp [dbSet, hkc]
        rw [dbLookup, if_neg hkc] at h
        rw [h2, dbLookup, if_neg hkc]
        exact ih h

lemma addGrant_lookup_other (uid : String) (db : List (String × UserDoc))
    (pid q : String) (h : q ≠ pid) :
    dbLookup (addGrant uid db pid) q = dbLookup db q := by
  cases hl : dbLookup db pid with
  | none => simp only [addGrant, hl]
  | some u =>
      by_cases hm : uid ∈ u.uidGrantedAccess
      · simp only [addGrant, hl, if_pos hm]
      · simp only [addGrant, hl, if_neg hm]
        exact dbLookup_dbSet_ne db pid q _ h

lemma removeGrant_lookup_other (uid : String) (db : List (String × UserDoc))
    (pid q : String) (h : q ≠ pid) :
    dbLookup (removeGrant uid db pid) q = dbLookup db q := by
  cases hl : dbLookup db pid with
  | none => simp only [removeGrant, hl]
  | some u =>
      by_cases hm : uid ∈ u.uidGrantedAccess
      · simp only [removeGrant, hl, if_pos hm]
        exact dbLookup_dbSet_ne db pid q _ h
      · simp only [removeGrant, hl, if_neg hm]

lemma foldl_addGrant_not_mem (uid : String) (l : List String) :
    ∀ (db : List (String × UserDoc)) (q : String), ¬ q ∈ l →
      dbLookup (l.foldl (addGrant uid) db) q = dbLookup db q := by
  induction l with
  | nil => intro db q _; rfl
  | cons a tl ih =>
      intro db q h
      simp only [List.mem_cons, not_or] at h
      rw [List.foldl_cons, ih _ q h.2,
        addGrant_lookup_other uid db a q h.1]

lemma foldl_removeGrant_not_mem (uid : String) (l : List String) :
    ∀ (db : List (String × UserDoc)) (q : String), ¬ q ∈ l →
      dbLookup (l.foldl (removeGrant uid) db) q = dbLookup db q := by
  induction l with
  | nil => intro db q _; rfl
  | cons a tl ih =>
      intro db q h
      simp only [List.mem_cons, not_or] at h
      rw [List.foldl_cons, ih _ q h.2,
        removeGrant_lookup_other uid db a q h.1]

lemma foldl_addGrant_stable (uid : String) (l : List String) :
    ∀ (db : List (String × UserDoc)) (q : String) (u : UserDoc),
      dbLookup db q = some u → uid ∈ u.uidGrantedAccess →
      dbLookup (l.foldl (addGrant uid) db) q = some u := by
  induction l with
  | nil => intro db q u h _; exact h
  | cons a tl ih =>
      intro db q u h hm
      rw [List.foldl_cons]
      by_cases haq : a = q
      · subst haq
        have : addGrant uid db a = db := by
          simp only [addGrant, h, if_pos hm]
        rw [this]
        exact ih db a u h hm
      · have h2 : dbLookup (addGrant uid db a) q = some u := by
          rw [addGrant_lookup_other uid db a q (fun hqa => haq hqa.symm), h]
        exact ih _ q u h2 hm

lemma foldl_removeGrant_stable (uid : String) (l : List String) :
    ∀ (db : List (String × UserDoc)) (q : String) (u : UserDoc),
      dbLookup db q = some u → ¬ uid ∈ u.uidGrantedAccess →
      dbLookup (l.foldl (removeGrant uid) db) q = some u := by
  induction l with
  | nil => intro db q u h _; exact h
  | cons a tl ih =>
      intro db q u h hm
      rw [List.foldl_cons]
      by_cases haq : a = q
      · subst haq
        have : removeGrant uid db a = db := by
          simp only [removeGrant, h, if_neg hm]
        rw [this]
        exact ih db a u h hm
      · have h2 : dbLookup (removeGrant uid db a) q = some u := by
          rw [removeGrant_lookup_other uid db a q (fun hqa => haq hqa.symm), h]
        exact ih _ q u h2 hm

lemma foldl_addGrant_mem (uid : String) (l : List String) :
    ∀ (db : List (String × UserDoc)) (q : String) (u : UserDoc),
      q ∈ l → dbLookup db q = some u →
      ∃ u2, dbLookup (l.foldl (addGrant uid) db) q = some u2 ∧
        u2.uidGrantedAccess.count uid =
          (if uid ∈ u.uidGrantedAccess then u.uidGrantedAccess.count uid
           else 1) := by
  induction l with
  | nil => intro db q u h; simp at h
  | cons a tl ih =>
      intro db q u hql h
      rw [List.foldl_cons]
      by_cases haq : a = q
      · subst haq
        by_cases hm : uid ∈ u.uidGrantedAccess
        · have hstep : addGrant uid db a = db := by
            simp only [addGrant, h, if_pos hm]
          rw [hstep, if_pos hm]
          exact ⟨u, foldl_addGrant_stable uid tl db a u h hm, rfl⟩
        · have hcnt : u.uidGrantedAccess.count uid = 0 :=
            List.count_eq_zero.mpr hm
          have hstep : addGrant uid db a =
              dbSet db a
                { u with uidGrantedAccess := u.uidGrantedAccess ++ [uid] } := by
            simp only [addGrant, h, if_neg hm]
          rw [hstep, if_neg hm]
          have hlook := dbLookup_dbSet_self db a
            { u with uidGrantedAccess := u.uidGrantedAccess ++ [uid] }
            (by rw [h]; rfl)
          refine ⟨_, foldl_addGrant_stable uid tl _ a _ hlook (by simp), ?_⟩
          simp [List.count_append, hcnt]
      · have h2 : dbLookup (addGrant uid db a) q = some u := by
          rw [addGrant_lookup_other uid db a q (fun hqa => haq hqa.symm), h]
        have hq2 : q ∈ tl := by
          cases List.mem_cons.mp hql with
          | inl h3 => exact absurd h3.symm haq
          | inr h3 => exact h3
        exact ih _ q u hq2 h2

lemma foldl_removeGrant_mem (uid : String) (l : List String) :
    ∀ (db : List (String × UserDoc)) (q : String) (u : UserDoc),
      q ∈ l → dbLookup db q = some u →
      ∃ u2, dbLookup (l.foldl (removeGrant uid) db) q = some u2 ∧
        ¬ uid ∈ u2.uidGrantedAccess := by
  induction l with
  | nil => intro db q u h; simp at h
  | cons a tl ih =>
      intro db q u hql h
      rw [List.foldl_cons]
      by_cases haq : a = q
      · subst haq
        by_cases hm : uid ∈ u.uidGrantedAccess
        · have hstep : removeGrant uid db a =
              dbSet db a
                { u with uidGrantedAccess :=
                    u.uidGrantedAccess.filter (fun x => x != uid) } := by
            simp only [removeGrant, h, if_pos hm]
          rw [hstep]
          have hnot : ¬ uid ∈ u.uidGrantedAccess.filter (fun x => x != uid) := by
            simp [List.mem_filter]
          have hlook := dbLookup_dbSet_self db a
            { u with uidGrantedAccess :=
                u.uidGrantedAccess.filter (fun x => x != uid) }
            (by rw [h]; rfl)
          exact ⟨_, foldl_removeGrant_stable uid tl _ a _ hlook hnot, hnot⟩
        · have hstep : removeGrant uid db a = db := by
            simp only [removeGrant, h, if_neg hm]
          rw [hstep]
          exact ⟨u, foldl_removeGrant_stable uid tl db a u h hm, hm⟩
      · have h2 : dbLookup (removeGrant uid db a) q = some u := by
          rw [removeGrant_lookup_other uid db a q (fun hqa => haq hqa.symm), h]
        have hq2 : q ∈ tl := by
          cases List.mem_cons.mp hql with
          | inl h3 => exact absurd h3.symm haq
          | inr h3 => exact h3
        exact ih _ q u hq2 h2

lemma connectedAdded_spec (beforeD afterD : UserDoc) (p : String)
    (hp : p ∈ connectedAdded beforeD afterD) :
    p ∈ afterD.connectedUsers ∧ ¬ p ∈ beforeD.connectedUsers := by
  rw [connectedAdded] at hp
  simpa using List.mem_filter.mp hp

lemma connectedRemoved_spec (beforeD afterD : UserDoc) (p : String)
    (hp : p ∈ connectedRemoved beforeD afterD) :
    p ∈ beforeD.connectedUsers ∧ ¬ p ∈ afterD.connectedUsers := by
  rw [connectedRemoved] at hp
  simpa using List.mem_filter.mp hp

/-- C4 (amended): when the changed client carries a non-empty uid, after the
`onConnectedUsersChange` trigger completes every peer newly added to
`connectedUsers` has that uid in its `uidGrantedAccess` array — exactly once
when the array did not already contain it; when the uid was already present
(possibly several times) the array is left untouched —, every peer removed
from `connectedUsers` no longer has the uid at all, and peers whose
membership in the list did not change are not written to. -/
theorem c4_access_grant_propagation (beforeD afterD : UserDoc)
    (db : List (String × UserDoc)) (huid : afterD.uid ≠ "") :
    (∀ p u0, p ∈ connectedAdded beforeD afterD → dbLookup db p = some u0 →
      ∃ u1, dbLookup (onConnectedUsersChange beforeD afterD db) p = some u1 ∧
        u1.uidGrantedAccess.count afterD.uid =
          (if afterD.uid ∈ u0.uidGrantedAccess then
            u0.uidGrantedAccess.count afterD.uid else 1)) ∧
    (∀ p u0, p ∈ connectedRemoved beforeD afterD → dbLookup db p = some u0 →
      ∃ u1, dbLookup (onConnectedUsersChange beforeD afterD db) p = some u1 ∧
        ¬ afterD.uid ∈ u1.uidGrantedAccess) ∧
    (∀ p, ¬ p ∈ connectedAdded beforeD afterD →
      ¬ p ∈ connectedRemoved beforeD afterD →
      dbLookup (onConnectedUsersChange beforeD afterD db) p =
        dbLookup db p) := by
  by_cases heq : beforeD.connectedUsers = afterD.connectedUsers
  · refine ⟨?_, ?_, ?_⟩
    · intro p u0 hp _
      obtain ⟨h1, h2⟩ := connectedAdded_spec beforeD afterD p hp
      exact absurd (heq ▸ h1) h2
    · intro p u0 hp _
      obtain ⟨h1, h2⟩ := connectedRemoved_spec beforeD afterD p hp
      exact absurd (heq ▸ h1) h2
    · intro p _ _
      rw [onConnectedUsersChange, if_pos heq]
  · have hrun : onConnectedUsersChange beforeD afterD db =
        (connectedRemoved beforeD afterD).foldl (removeGrant afterD.uid)
          ((connectedAdded beforeD afterD).foldl (addGrant afterD.uid) db) := by
      rw [onConnectedUsersChange, if_neg heq, if_neg huid]
    refine ⟨?_, ?_, ?_⟩
    · intro p u0 hp hl
      have hdisj : ¬ p ∈ connectedRemoved beforeD afterD := fun hq =>
        (connectedRemoved_spec beforeD afterD p hq).2
          (connectedAdded_spec beforeD afterD p hp).1
      obtain ⟨u1, h1, hcnt⟩ :=
        foldl_addGrant_mem afterD.uid (connectedAdded beforeD afterD) db p u0
          hp hl
      refine ⟨u1, ?_, hcnt⟩
      rw [hrun, foldl_removeGrant_not_mem _ _ _ _ hdisj, h1]
    · intro p u0 hp hl
      have hnadd : ¬ p ∈ connectedAdded beforeD afterD := fun hq =>
        (connectedRemoved_spec beforeD afterD p hp).2
          (connectedAdded_spec beforeD afterD p hq).1
      have h1 : dbLookup
          ((connectedAdded beforeD afterD).foldl (addGrant afterD.uid) db) p =
          some u0 := by
        rw [foldl_addGrant_not_mem _ _ _ _ hnadd, hl]
      obtain ⟨u1, h2, hmem⟩ :=
        foldl_removeGrant_mem afterD.uid (connectedRemoved beforeD afterD) _ p
          u0 hp h1
      refine ⟨u1, ?_, hmem⟩
      rw [hrun]
      exact h2
    · intro p hpa hpr
      rw [hrun, foldl_removeGrant_not_mem _ _ _ _ hpr,
        foldl_addGrant_not_mem _ _ _ _ hpa]

/-- C4 counterexample: the claim says a newly added peer ends with the uid
present exactly once, but when the peer's `uidGrantedAccess` already contains
the uid (here twice), the trigger's `includes` check skips the write and the
uid remains present twice. -/
theorem c4_counterexample_duplicate_grant :
    c4After.uid = "u" ∧ "peer" ∈ connectedAdded c4Before c4After ∧
    (dbLookup (onConnectedUsersChange c4Before c4After c4Db) "peer").map
      (fun u => u.uidGrantedAccess.count "u") = some 2 := by decide

/-- Witness for the amended C4 theorem at a concrete update. -/
theorem c4_access_grant_propagation_witness :
    ∃ u1, dbLookup (onConnectedUsersChange c4Before c4After c4wDb) "peer" =
        some u1 ∧
      u1.uidGrantedAccess.count c4After.uid =
        (if c4After.uid ∈ c4wPeer.uidGrantedAccess then
          c4wPeer.uidGrantedAccess.count c4After.uid else 1) :=
  (c4_access_grant_propagation c4Before c4After c4wDb (by decide)).1 "peer"
    c4wPeer (by decide) (by decide)

lemma foldl_addGrant_fields (uid : String) (l : List String) :
    ∀ (db : List (String × UserDoc)) (q : String) (u : UserDoc),
      dbLookup db q = some u →
      ∃ u2, dbLookup (l.foldl (addGrant uid) db) q = some u2 ∧
        u2.uid = u.uid ∧ u2.email = u.email ∧ u2.appEmail = u.appEmail := by
  induction l with
  | nil => intro db q u h; exact ⟨u, h, rfl, rfl, rfl⟩
  | cons a tl ih =>
      intro db q u h
      rw [List.foldl_cons]
      by_cases haq : a = q
      · subst haq
        by_cases hm : uid ∈ u.uidGrantedAccess
        · have hstep : addGrant uid db a = db := by
            simp only [addGrant, h, if_pos hm]
          rw [hstep]
          exact ih db a u h
        · have hstep : addGrant uid db a =
              dbSet db a
                { u with uidGrantedAccess := u.uidGrantedAccess ++ [uid] } := by
            simp only [addGrant, h, if_neg hm]
          rw [hstep]
          have hlook := dbLookup_dbSet_self db a
            { u with uidGrantedAccess := u.uidGrantedAccess ++ [uid] }
            (by rw [h]; rfl)
          obtain ⟨u2, h2, e1, e2, e3⟩ := ih _ a _ hlook
          exact ⟨u2, h2, e1, e2, e3⟩
      · have h2 : dbLookup (addGrant uid db a) q = some u := by
          rw [addGrant_lookup_other uid db a q (fun hqa => haq hqa.symm), h]
        exact ih _ q u h2

/-- C6: `linkNewUser` throws `invalid-argument` when any of email, cid, uid or
usersCollectionID is missing/empty, `not-found` when no document exists for
the cid, `already-exists` when the document already carries a non-empty uid
(each failure occurring before any write), and on success writes the
document's uid, email and appEmail fields. -/
theorem c6_linkNewUser_cases (d : LinkData) (db : List (String × UserDoc)) :
    ((d.email = "" ∨ d.cid = "" ∨ d.uid = "" ∨ d.usersCollectionID = "") →
      linkNewUser true d db = .error .invalidArgument) ∧
    (d.email ≠ "" → d.cid ≠ "" → d.uid ≠ "" → d.usersCollectionID ≠ "" →
      dbLookup db d.cid = none → linkNewUser true d db = .error .notFound) ∧
    (∀ u, d.email ≠ "" → d.cid ≠ "" → d.uid ≠ "" → d.usersCollectionID ≠ "" →
      dbLookup db d.cid = some u → u.uid ≠ "" →
      linkNewUser true d db = .error .alreadyExists) ∧
    (∀ u, d.email ≠ "" → d.cid ≠ "" → d.uid ≠ "" → d.usersCollectionID ≠ "" →
      dbLookup db d.cid = some u → u.uid = "" →
      ∃ db2 u2, linkNewUser true d db = .ok db2 ∧
        dbLookup db2 d.cid = some u2 ∧ u2.uid = d.uid ∧
        u2.email = d.email ∧ u2.appEmail = d.email) := by
  refine ⟨?_, ?_, ?_, ?_⟩
  · intro h
    by_cases he : d.email = ""
    · simp [linkNewUser, he]
    · by_cases hc : d.cid = ""
      · simp [linkNewUser, he, hc]
      · by_cases hu : d.uid = ""
        · simp [linkNewUser, he, hc, hu]
        · have hw : d.usersCollectionID = "" := by tauto
          simp [linkNewUser, he, hc, hu, hw]
  · intro he hc hu hw hl
    simp [linkNewUser, he, hc, hu, hw, hl]
  · intro u he hc hu hw hl hne
    simp [linkNewUser, he, hc, hu, hw, hl, hne]
  · intro u he hc hu hw hl hz
    have hrun : linkNewUser true d db =
        .ok (addUidToConnectedUsers u.connectedUsers d.uid
          (dbSet db d.cid
            { u with uid := d.uid, email := d.email, appEmail := d.email })) := by
      simp [linkNewUser, he, hc, hu, hw, hl, hz]
    have hlook := dbLookup_dbSet_self db d.cid
      { u with uid := d.uid, email := d.email, appEmail := d.email }
      (by rw [hl]; rfl)
    obtain ⟨u2, h2, e1, e2, e3⟩ :=
      foldl_addGrant_fields d.uid u.connectedUsers _ d.cid _ hlook
    exact ⟨_, u2, hrun, h2, by rw [e1], by rw [e2], by rw [e3]⟩

/-- Witness for C6: the success case at a concrete collection. -/
theorem c6_linkNewUser_cases_witness :
    ∃ db2 u2, linkNewUser true c6Data c6Db = .ok db2 ∧
      dbLookup db2 c6Data.cid = some u2 ∧ u2.uid = c6Data.uid ∧
      u2.email = c6Data.email ∧ u2.appEmail = c6Data.email :=
  (c6_linkNewUser_cases c6Data c6Db).2.2.2 c6User (by decide) (by decide)
    (by decide) (by decide) (by decide) (by decide)

/-- C9: with the store and messaging healthy, the notification trigger writes
and sends exactly one notification record when the activity's `sendNotif`
flag is strictly `true` and the owning collection is none of the excluded
ones, and in every other case returns null and writes nothing. -/
theorem c9_notification_iff (a : ActivityDoc) (activityId coll : String) :
    (handleNewActivity a activityId coll true true).written =
      (if a.sendNotif = some true ∧ ¬ coll ∈ excludedCollections then
        [mkNotif a activityId] else []) ∧
    (handleNewActivity a activityId coll true true).result =
      (if a.sendNotif = some true ∧ ¬ coll ∈ excludedCollections then
        Except.ok (some ()) else Except.ok none) := by
  by_cases hcond : a.sendNotif = some true ∧ ¬ coll ∈ excludedCollections
  · constructor <;>
      simp [handleNewActivity, hcond.1, hcond.2, if_pos hcond]
  · have hor : a.sendNotif ≠ some true ∨ coll ∈ excludedCollections := by
      by_cases hp : a.sendNotif = some true
      · push_neg at hcond
        exact Or.inr (hcond hp)
      · exact Or.inl hp
    constructor <;> simp [handleNewActivity, if_pos hor, if_neg hcond]

/-- C7 counterexample: the claim says every non-typed failure inside a server
trigger is logged and swallowed so the trigger completes without propagating,
and names `handleNewActivity` in particular; but neither of that trigger's
failure modes is swallowed.  A failure of the awaited notification write
takes the catch path and is re-thrown as an HttpsError with code `unknown`,
and a failure of the un-awaited FCM send bypasses the catch entirely and
propagates to the caller as the raw error; in both cases the trigger settles
with an error instead of completing. -/
theorem c7_counterexample_handle_activity_rethrows :
    (handleNewActivity c7Activity "a1" "users" false true).result =
      Except.error (TriggerError.httpsError HttpsErrorCode.unknown) ∧
    (handleNewActivity c7Activity "a1" "users" true false).result =
      Except.error TriggerError.uncaught := by
  constructor <;> rfl

lemma commitBatch_map : ∀ (ops : List (String × String))
    (acts : List (String × ActivityDoc)),
    commitBatch acts ops = acts.map (fun e => ops.foldl opStep e) := by
  intro ops
  induction ops with
  | nil => intro acts; simp [commitBatch]
  | cons op t ih =>
      intro acts
      rw [commitBatch, List.foldl_cons]
      have h1 : List.foldl applyOp (applyOp acts op) t =
          commitBatch (applyOp acts op) t := rfl
      rw [h1, ih (applyOp acts op), applyOp, List.map_map]
      rfl

lemma opStep_ne (e : String × ActivityDoc) (op : String × String)
    (h : ¬ e.1 = op.1) : opStep e op = e := by
  simp [opStep, h]

lemma foldl_opStep_no_hit (e : String × ActivityDoc) :
    ∀ ops : List (String × String), (∀ op ∈ ops, ¬ e.1 = op.1) →
      ops.foldl opStep e = e := by
  intro ops
  induction ops with
  | nil => intro _; rfl
  | cons op t ih =>
      intro h
      rw [List.foldl_cons, opStep_ne e op (h op (List.mem_cons_self _ _))]
      exact ih (fun o ho => h o (List.mem_cons_of_mem _ ho))

lemma foldl_opStep_fixed (r : String) :
    ∀ (ops : List (String × String)) (e : String × ActivityDoc),
      (∀ op ∈ ops, op.2 = r) → e.2.recipient = r →
      ops.foldl opStep e = e := by
  intro ops
  induction ops with
  | nil => intro e _ _; rfl
  | cons op t ih =>
      intro e hops he
      rw [List.foldl_cons]
      have hstep : opStep e op = e := by
        by_cases h1 : e.1 = op.1
        · have h2 : op.2 = r := hops op (List.mem_cons_self _ _)
          obtain ⟨e1, e2⟩ := e
          obtain ⟨am, fu, ty, ti, sn, re⟩ := e2
          dsimp only at he h1
          subst he
          subst h1
          rw [opStep, if_pos rfl, h2]
        · exact opStep_ne e op h1
      rw [hstep]
      exact ih e (fun o ho => hops o (List.mem_cons_of_mem _ ho)) he

lemma foldl_opStep_hit (r : String) :
    ∀ (ys : List (String × ActivityDoc)) (e : String × ActivityDoc),
      e ∈ ys → (∀ y ∈ ys, y.1 = e.1 → y = e) →
      (ys.map (fun y => (y.1, r))).foldl opStep e =
        (e.1, { e.2 with recipient := r }) := by
  intro ys
  induction ys with
  | nil => intro e he; simp at he
  | cons y t ih =>
      intro e he huniq
      rw [List.map_cons, List.foldl_cons]
      by_cases hye : y = e
      · subst hye
        have hstep : opStep y (y.1, r) = (y.1, { y.2 with recipient := r }) := by
          simp [opStep]
        rw [hstep]
        apply foldl_opStep_fixed r
        · intro op hop
          obtain ⟨z, _, hz⟩ := List.mem_map.mp hop
          rw [← hz]
        · rfl
      · have hne : ¬ e.1 = y.1 := by
          intro h1
          exact hye (huniq y (List.mem_cons_self _ _) h1.symm)
        rw [opStep_ne e (y.1, r) hne]
        have het : e ∈ t := by
          cases List.mem_cons.mp he with
          | inl h1 => exact absurd h1.symm hye
          | inr h1 => exact h1
        exact ih e het (fun z hz => huniq z (List.mem_cons_of_mem _ hz))

lemma nodup_keys_inj {α : Type} (acts : List (String × α))
    (hnd : (acts.map Prod.fst).Nodup) :
    ∀ {x y : String × α}, x ∈ acts → y ∈ acts → x.1 = y.1 → x = y := by
  induction acts with
  | nil => intro x y hx; simp at hx
  | cons a t ih =>
      rw [List.map_cons, List.nodup_cons] at hnd
      intro x y hx hy hxy
      cases List.mem_cons.mp hx with
      | inl h1 =>
          cases List.mem_cons.mp hy with
          | inl h2 => rw [h1, h2]
          | inr h2 =>
              exfalso
              apply hnd.1
              rw [← h1, hxy]
              exact List.mem_map.mpr ⟨y, h2, rfl⟩
      | inr h1 =>
          cases List.mem_cons.mp hy with
          | inl h2 =>
              exfalso
              apply hnd.1
              rw [← h2, ← hxy]
              exact List.mem_map.mpr ⟨x, h1, rfl⟩
          | inr h2 => exact ih hnd.2 h1 h2 hxy

/-- C5: on a single-asset rename with the client document present, the
`onAssetUpdate` trigger rewrites the `recipient` field to the new title
(the client's full name when the new title is `Personal`) for exactly those
activity records whose fund equals the renamed asset's fund and whose
recipient equals the old title (the client's full name when the old title was
`Personal`); every other record, and every field other than `recipient` of
the rewritten records, is unchanged (document ids are unique). -/
theorem c5_asset_rename_rewrites_exact_matches (assetId : String)
    (beforeD afterD : List (String × AssetDetails)) (nm : String × String)
    (acts : List (String × ActivityDoc)) (r : Rename)
    (hr : assetsToUpdate beforeD afterD = [r])
    (hnd : (acts.map Prod.fst).Nodup) :
    onAssetUpdate assetId beforeD afterD (some nm) acts true =
      acts.map (fun ia =>
        if activityMatches (fundOfAssetId assetId)
            (oldRecipientOf (nm.1 ++ " " ++ nm.2) r) ia = true then
          (ia.1, { ia.2 with recipient :=
            (newRecipientOf (nm.1 ++ " " ++ nm.2) r) })
        else ia) := by
  have hrun : onAssetUpdate assetId beforeD afterD (some nm) acts true =
      commitBatch acts
        (renameOps (fundOfAssetId assetId) (nm.1 ++ " " ++ nm.2) acts [r]) := by
    simp [onAssetUpdate, hr]
  have hops : renameOps (fundOfAssetId assetId) (nm.1 ++ " " ++ nm.2) acts [r] =
      (acts.filter (activityMatches (fundOfAssetId assetId)
        (oldRecipientOf (nm.1 ++ " " ++ nm.2) r))).map
        (fun ia => (ia.1, newRecipientOf (nm.1 ++ " " ++ nm.2) r)) := by
    simp [renameOps]
  rw [hrun, hops, commitBatch_map]
  apply List.map_congr_left
  intro e he
  by_cases hm : activityMatches (fundOfAssetId assetId)
      (oldRecipientOf (nm.1 ++ " " ++ nm.2) r) e = true
  · rw [if_pos hm]
    apply foldl_opStep_hit
    · exact List.mem_filter.mpr ⟨he, hm⟩
    · intro y hy h1
      exact nodup_keys_inj acts hnd (List.mem_of_mem_filter hy) he h1
  · rw [if_neg hm]
    apply foldl_opStep_no_hit
    intro op hop h1
    obtain ⟨z, hz, hz2⟩ := List.mem_map.mp hop
    have hz3 : z ∈ acts := List.mem_of_mem_filter hz
    have hmz := (List.mem_filter.mp hz).2
    have hze : z = e := by
      apply nodup_keys_inj acts hnd hz3 he
      rw [← hz2] at h1
      exact h1.symm
    rw [hze] at hmz
    exact hm hmz

/-- Witness for C5 at a concrete rename. -/
theorem c5_asset_rename_rewrites_exact_matches_witness :
    onAssetUpdate "agq" c5Before c5After (some ("Jane", "Doe")) c5Acts true =
      c5Acts.map (fun ia =>
        if activityMatches (fundOfAssetId "agq")
            (oldRecipientOf (("Jane", "Doe").1 ++ " " ++ ("Jane", "Doe").2)
              c5Rename) ia = true then
          (ia.1, { ia.2 with recipient :=
            (newRecipientOf (("Jane", "Doe").1 ++ " " ++ ("Jane", "Doe").2)
              c5Rename) })
        else ia) :=
  c5_asset_rename_rewrites_exact_matches "agq" c5Before c5After ("Jane", "Doe")
    c5Acts c5Rename (by decide) (by decide)

lemma foldl_resetStep_inv (l : List String) :
    ∀ st : ResetState,
      (∀ b ∈ st.batches, b.length ≤ 500) →
      st.current.length = st.count → st.count ≤ 499 →
      (∀ b ∈ (l.foldl resetStep st).batches, b.length ≤ 500) ∧
        (l.foldl resetStep st).current.length = (l.foldl resetStep st).count ∧
        (l.foldl resetStep st).count ≤ 499 := by
  induction l with
  | nil => intro st h1 h2 h3; exact ⟨h1, h2, h3⟩
  | cons u t ih =>
      intro st h1 h2 h3
      rw [List.foldl_cons]
      by_cases hfull : st.count + 1 = 500
      · have hstep : resetStep st u =
            ⟨st.batches ++ [st.current ++ [u]], [], 0⟩ := by
          simp [resetStep, hfull]
        rw [hstep]
        apply ih
        · intro b hb
          cases List.mem_append.mp hb with
          | inl hb1 => exact h1 b hb1
          | inr hb1 =>
              have hb2 : b = st.current ++ [u] := by simpa using hb1
              rw [hb2]
              simp [List.length_append, h2]
              omega
        · rfl
        · exact Nat.zero_le _
      · have hstep : resetStep st u =
            ⟨st.batches, st.current ++ [u], st.count + 1⟩ := by
          simp [resetStep, hfull]
        rw [hstep]
        apply ih
        · exact h1
        · simp [List.length_append, h2]
        · show st.count + 1 ≤ 499
          omega

lemma renameOps_length (fund cn : String) (acts : List (String × ActivityDoc)) :
    ∀ rs : List Rename,
      (renameOps fund cn acts rs).length =
        (rs.map (fun r =>
          (acts.filter (activityMatches fund (oldRecipientOf cn r))).length)).sum := by
  have haux : ∀ (rs : List Rename) (init : List (String × String)),
      (rs.foldl (fun ops r =>
        ops ++ (acts.filter
          (activityMatches fund (oldRecipientOf cn r))).map
            (fun ia => (ia.1, newRecipientOf cn r))) init).length =
      init.length + (rs.map (fun r =>
        (acts.filter (activityMatches fund (oldRecipientOf cn r))).length)).sum := by
    intro rs
    induction rs with
    | nil => intro init; simp
    | cons r t ih =>
        intro init
        rw [List.foldl_cons, ih]
        simp [List.length_append, List.length_map]
        omega
  intro rs
  have h := haux rs []
  simpa [renameOps] using h

/-- C8 (amended): every batch `scheduledYTDReset` commits holds at most 500
operations, for every number of users; the rename-propagation batch of
`onAssetUpdate`, by contrast, is committed in one piece with exactly one
operation per matching activity record, so it respects the 500 limit only
when at most 500 records match. -/
theorem c8_batch_size_cap :
    (∀ userIds : List String, ∀ b ∈ scheduledYTDReset userIds,
      b.length ≤ 500) ∧
    (∀ (assetId : String) (beforeD afterD : List (String × AssetDetails))
        (nm : String × String) (acts : List (String × ActivityDoc)),
      ¬ assetsToUpdate beforeD afterD = [] →
      (onAssetUpdateBatchOps assetId beforeD afterD (some nm) acts).length =
        ((assetsToUpdate beforeD afterD).map (fun r =>
          (acts.filter (activityMatches (fundOfAssetId assetId)
            (oldRecipientOf (nm.1 ++ " " ++ nm.2) r))).length)).sum) := by
  constructor
  · intro userIds b hb
    have hinv := foldl_resetStep_inv userIds ⟨[], [], 0⟩
      (by intro b1 hb1; simp at hb1) rfl (Nat.zero_le _)
    simp only [scheduledYTDReset] at hb
    by_cases hc : (userIds.foldl resetStep ⟨[], [], 0⟩).count > 0
    · rw [if_pos hc] at hb
      cases List.mem_append.mp hb with
      | inl hb1 => exact hinv.1 b hb1
      | inr hb1 =>
          have hb2 : b = (userIds.foldl resetStep ⟨[], [], 0⟩).current := by
            simpa using hb1
          rw [hb2, hinv.2.1]
          omega
    · rw [if_neg hc] at hb
      exact hinv.1 b hb
  · intro assetId beforeD afterD nm acts hne
    have hrun : onAssetUpdateBatchOps assetId beforeD afterD (some nm) acts =
        renameOps (fundOfAssetId assetId) (nm.1 ++ " " ++ nm.2) acts
          (assetsToUpdate beforeD afterD) := by
      simp [onAssetUpdateBatchOps, hne]
    rw [hrun, renameOps_length]

/-- C8 counterexample: with 501 activity records matching a rename, the write
set `onAssetUpdate` assembles before its single `batch.commit()` holds 501
operations, over the store's batch-size limit of 500 — the claim that every
assembled batch holds at most 500 operations before commit fails for the
rename propagation. -/
theorem c8_counterexample_uncapped_batch :
    (onAssetUpdateBatchOps "agq" c8Before c8After (some ("John", "Doe"))
      c8Acts).length = 501 ∧
    ¬ (onAssetUpdateBatchOps "agq" c8Before c8After (some ("John", "Doe"))
      c8Acts).length ≤ 500 := by
  have hrs : assetsToUpdate c8Before c8After = [⟨1, "Old", "New"⟩] := by decide
  have hrun : onAssetUpdateBatchOps "agq" c8Before c8After
      (some ("John", "Doe")) c8Acts =
      renameOps (fundOfAssetId "agq") ("John" ++ " " ++ "Doe") c8Acts
        [⟨1, "Old", "New"⟩] := by
    simp [onAssetUpdateBatchOps, hrs]
  have hf : c8Acts.filter (activityMatches (fundOfAssetId "agq")
      (oldRecipientOf ("John" ++ " " ++ "Doe") ⟨1, "Old", "New"⟩)) = c8Acts := by
    apply List.filter_eq_self.mpr
    intro a ha
    have ha2 := List.eq_of_mem_replicate ha
    rw [ha2]
    decide
  have h1 : (onAssetUpdateBatchOps "agq" c8Before c8After
      (some ("John", "Doe")) c8Acts).length = 501 := by
    rw [hrun, renameOps_length]
    simp only [List.map_cons, List.map_nil, List.sum_cons, List.sum_nil, hf]
    have hlen : c8Acts.length = 501 := by
      rw [c8Acts, List.length_replicate]
    omega
  exact ⟨h1, by rw [h1]; omega⟩

/-- C7 (amended): a failure of the batch commit inside `onAssetUpdate` is
logged and swallowed — the trigger completes with the activities collection
unchanged — but `handleNewActivity` does not swallow: a failure of the
awaited notification write (`createNotif`) is logged and re-thrown as an
HttpsError with code `unknown`, which propagates to the trigger's caller,
and a failure of the FCM send (`sendNotif`, called without `await` and its
promise returned from the try block) bypasses the catch entirely and
propagates to the caller as the raw error, neither logged nor wrapped. -/
theorem c7_trigger_error_handling :
    (∀ (assetId : String) (beforeD afterD : List (String × AssetDetails))
        (clientDoc : Option (String × String))
        (acts : List (String × ActivityDoc)),
      onAssetUpdate assetId beforeD afterD clientDoc acts false = acts) ∧
    (∀ (a : ActivityDoc) (activityId coll : String),
      a.sendNotif = some true → ¬ coll ∈ excludedCollections →
      (∀ sendOk : Bool,
        (handleNewActivity a activityId coll false sendOk).result =
          Except.error (TriggerError.httpsError HttpsErrorCode.unknown)) ∧
      (handleNewActivity a activityId coll true false).result =
        Except.error TriggerError.uncaught) := by
  constructor
  · intro assetId beforeD afterD clientDoc acts
    by_cases h : assetsToUpdate beforeD afterD = []
    · simp [onAssetUpdate, h]
    · cases clientDoc with
      | none => simp [onAssetUpdate, h]
      | some nm => simp [onAssetUpdate, h]
  · intro a activityId coll h1 h2
    have hor : ¬ (a.sendNotif ≠ some true ∨ coll ∈ excludedCollections) := by
      intro h
      cases h with
      | inl h4 => exact h4 h1
      | inr h4 => exact h2 h4
    constructor
    · intro sendOk
      simp [handleNewActivity, if_neg hor]
    · simp [handleNewActivity, if_neg hor]

/-- C10 counterexample: the two import variants disagree on the input
"withdrawal" — the unnamed handler classifies it "income", the dashboard
handler "profit" — so they do not classify the Type column identically. -/
theorem c10_counterexample_withdrawal :
    getActivityTypeUnnamed (some "withdrawal") = "income" ∧
    getActivityTypeDashboard (some "withdrawal") = "profit" ∧
    ¬ getActivityTypeUnnamed (some "withdrawal") =
        getActivityTypeDashboard (some "withdrawal") := by decide

/-- C10 (amended): the two CSV-import classifiers agree on every input other
than "withdrawal" (where one returns "income" and the other "profit"). -/
theorem c10_activity_type_agree_except_withdrawal (t : Option String)
    (h : ¬ t = some "withdrawal") :
    getActivityTypeUnnamed t = getActivityTypeDashboard t := by
  cases t with
  | none => rfl
  | some s =>
      have hs : ¬ s = "withdrawal" := fun h1 => h (by rw [h1])
      by_cases h0 : s = ""
      · simp [getActivityTypeUnnamed, getActivityTypeDashboard, h0]
      · simp [getActivityTypeUnnamed, getActivityTypeDashboard, h0, hs]

/-- Witness for the amended C10 theorem. -/
theorem c10_activity_type_agree_except_withdrawal_witness :
    getActivityTypeUnnamed (some "deposit") =
      getActivityTypeDashboard (some "deposit") :=
  c10_activity_type_agree_except_withdrawal (some "deposit") (by decide)
